import Mathlib

/-!
Verification of the quirk-trade-appraisal lead-intake pipeline.

The repository's serverless functions are shallowly embedded here:

* `netlify/functions/trade-appraisal.js` (first revision): `safe`, `digits`,
  the normalized `lead` record, the honeypot check, the required-field
  check, the ADF XML template, and the deliver-with-backup control flow.
* `netlify/functions/trade-appraisal.js` (second revision): the
  `preferredOrder` list, the `rows` builder over the merged record,
  `htmlEscape`, and the `htmlTable` template.
* `netlify/functions/submission-created.js`: the webhook handler's
  response paths.

JavaScript values are modelled by `JVal`; JS strings become Lean `String`
(operating on `String.data`, i.e. code points; the sources only rely on
ASCII behaviour), JSON numbers are modelled as `Int`, and the two
network transports (SendGrid, the Sheets webhook) are modelled by a
boolean environment `Env` recording whether each call would succeed.
`new Date().toISOString()` is modelled by an explicit `now` parameter.
A thrown `TypeError` (reachable in the source when `data.company` is a
truthy non-string, since `(data.company || "").trim()` then calls `.trim`
on a non-string) is modelled by returning `none`.
-/

set_option maxRecDepth 16384

/-- A JavaScript/JSON value as received by the handlers.  `undef` stands
for JavaScript `undefined` (in particular: an absent object field). -/
inductive JVal where
  | str (s : String)
  | num (n : Int)
  | bool (b : Bool)
  | null
  | undef
  | obj (fields : List (String × JVal))
  | arr (elems : List JVal)

/-- An object's field list. -/
def JObj := List (String × JVal)

/-- JavaScript property access `v[k]` for the object fields the handlers
read; absent keys (and non-object receivers) give `undefined`. -/
def JVal.getF (v : JVal) (k : String) : JVal :=
  match v with
  | .obj fields =>
    match fields.find? (fun f => f.1 = k) with
    | some f => f.2
    | none => (.undef)
  | _ => (.undef)

/-- JavaScript truthiness, as used by `||` and by `if`. -/
def truthy : JVal → Bool
  | .str s => s ≠ ""
  | .num n => n ≠ 0
  | .bool b => b
  | .null => false
  | .undef => false
  | .obj _ => true
  | .arr _ => true

/-- JavaScript `a || b`. -/
def jsOr (a b : JVal) : JVal := if truthy a then a else b

/-- Whether a value is a JS string (`typeof v === "string"`). -/
def isStrB : JVal → Bool
  | .str _ => true
  | _ => false

/-- Whitespace for the model of `String.prototype.trim` (the ASCII
whitespace characters; the source never feeds exotic Unicode spaces). -/
def wsChar (c : Char) : Bool :=
  c = ' ' || c = '\t' || c = '\n' || c = '\r' || c = '\x0b' || c = '\x0c'

/-- Trim on the character list: drop whitespace from both ends. -/
def trimChars (l : List Char) : List Char :=
  ((l.dropWhile wsChar).reverse.dropWhile wsChar).reverse

/-- Model of JavaScript `s.trim()`. -/
def jsTrim (s : String) : String := ⟨trimChars s.data⟩

/-- `const safe = (v) => (typeof v === "string" ? v.trim() : "")`. -/
def safe (v : JVal) : String :=
  match v with
  | .str s => jsTrim s
  | _ => ""

/-- `const digits = (v) => (safe(v).replace(/\D/g, ""))`. -/
def digits (v : JVal) : String := ⟨(safe v).data.filter Char.isDigit⟩

/-- `digits(phoneRaw || phone).slice(0, 15)` — the normalized phone.
JS `slice` counts UTF-16 units; after `digits` every character is an
ASCII digit, so taking 15 code points is exact. -/
def normPhone (phoneRaw phone : JVal) : String :=
  ⟨(digits (jsOr phoneRaw phone)).data.take 15⟩

/-- Model of `String.prototype.toUpperCase` (ASCII fragment, which is
all the VIN field needs). -/
def jsToUpper (s : String) : String := ⟨s.data.map Char.toUpper⟩

/-- The normalized lead record (all fields strings). -/
structure Lead where
  name : String
  email : String
  phone : String
  vin : String
  year : String
  make : String
  model : String
  trim : String
  mileage : String
  extColor : String
  intColor : String
  submittedAt : String
  referrer : String
  landingPage : String
deriving DecidableEq, Repr

/-- The `lead` object built by `trade-appraisal.js` (first revision,
lines 36–54); `now` models `new Date().toISOString()`. -/
def mkLead (data : JVal) (now : String) : Lead where
  name := safe (data.getF ("name"))
  email := safe (data.getF ("email"))
  phone := normPhone (data.getF ("phoneRaw")) (data.getF ("phone"))
  vin := jsToUpper (safe (data.getF ("vin")))
  year := safe (data.getF ("year"))
  make := safe (data.getF ("make"))
  model := safe (data.getF ("model"))
  trim := safe (data.getF ("trim"))
  mileage := safe (data.getF ("mileage"))
  extColor := safe (data.getF ("extColor"))
  intColor := safe (data.getF ("intColor"))
  submittedAt := now
  referrer := safe (data.getF ("referrer"))
  landingPage := safe (data.getF ("landingPage"))

/-- The required-field check of `trade-appraisal.js` line 57:
`!lead.name || !lead.email || !lead.phone || !lead.vin` negated. -/
def validLead (l : Lead) : Bool :=
  l.name ≠ "" && l.email ≠ "" && l.phone ≠ "" && l.vin ≠ ""

/-- `(data.company || "").trim()`: `some` of the trimmed string when the
expression evaluates, `none` when it would throw (`company` truthy and
not a string, so `.trim` is not a function). -/
def trimOf? (v : JVal) : Option String :=
  match jsOr v (.str ("")) with
  | .str s => some (jsTrim s)
  | _ => none

example : trimOf? (JVal.str ("  bot ")) = some ("bot") := by decide
example : trimOf? JVal.undef = some ("") := by decide
example : trimOf? (JVal.num 5) = none := by decide
example : normPhone (JVal.str ("(603) 555-1212 ext9")) JVal.undef = "60355512129" := by decide

/-- An HTTP response as returned by the Netlify handlers.  A JS response
object with no `headers` key is modelled with `headers = []`. -/
structure Response where
  statusCode : Nat
  headers : List (String × String)
  body : String
deriving DecidableEq, Repr

/-- What a run of the trade-appraisal handler did: the response, whether
the primary email transport was invoked (`sg.send`), and whether the
backup Sheets webhook was invoked (`fetch`). -/
structure Outcome where
  resp : Response
  emailAttempted : Bool
  backupInvoked : Bool
deriving DecidableEq, Repr

/-- The external world: whether `sg.send` would succeed, whether
`process.env.SHEETS_WEBHOOK_URL` is set, and whether the backup webhook
call would succeed (its outcome is ignored by the source). -/
structure Env where
  emailOk : Bool
  backupConfigured : Bool
  backupOk : Bool
deriving DecidableEq, Repr

/-- The CORS headers attached to every trade-appraisal response
(`trade-appraisal.js` lines 7–10). -/
def corsHeaders : List (String × String) :=
  [("Access-Control-Allow-Origin", "*"), ("Access-Control-Allow-Headers", "content-type")]

/-- `JSON.stringify({ ok: true })`. -/
def okBody : String := "\x7b\"ok\":true\x7d"

/-- `JSON.stringify({ ok: true, silent: true })`. -/
def silentBody : String := "\x7b\"ok\":true,\"silent\":true\x7d"

/-- `trade-appraisal.js` (first revision) after a successful JSON parse:
honeypot check (lines 26–29), lead normalization (36–54), required-field
check (56–59), primary send (103–114), best-effort backup (116–131),
success response (133).  `none` models the TypeError thrown when
`data.company` is truthy but not a string. -/
def handlerCore (env : Env) (now : String) (data : JVal) : Option Outcome :=
  match trimOf? (data.getF ("company")) with
  | none => none
  | some c =>
    if c ≠ "" then
      some ⟨⟨200, corsHeaders, silentBody⟩, false, false⟩
    else
      if !(validLead (mkLead data now)) then
        some ⟨⟨400, corsHeaders, "Missing required fields"⟩, false, false⟩
      else if env.emailOk then
        some ⟨⟨200, corsHeaders, okBody⟩, true, env.backupConfigured⟩
      else
        some ⟨⟨502, corsHeaders, "Failed to send lead"⟩, true, false⟩

/-- The raw request body: `missing` models `event.body` being absent
(`undefined` or `null`), `strB` a string body. -/
inductive BodyV where
  | missing
  | strB (s : String)

/-- `event.body || "{}"`: a missing or empty (falsy) body defaults to
the empty JSON object literal. -/
def bodyStr : BodyV → String
  | .missing => "\x7b\x7d"
  | .strB s => if s = "" then "\x7b\x7d" else s

/-- JSON whitespace. -/
def jsonWS (c : Char) : Bool := c = ' ' || c = '\t' || c = '\n' || c = '\r'

/-- Drop leading JSON whitespace. -/
def skipWS (l : List Char) : List Char := l.dropWhile jsonWS

/-- Hexadecimal digit value, for `\uXXXX` escapes. -/
def hexVal (c : Char) : Option Nat :=
  if '0' ≤ c ∧ c ≤ '9' then some (c.toNat - '0'.toNat)
  else if 'a' ≤ c ∧ c ≤ 'f' then some (c.toNat - 'a'.toNat + 10)
  else if 'A' ≤ c ∧ c ≤ 'F' then some (c.toNat - 'A'.toNat + 10)
  else none

/-- Parse the remainder of a JSON string literal (the opening quote is
already consumed), `acc` holding the characters read so far reversed. -/
def pStr : List Char → List Char → Option (String × List Char)
  | [], _ => none
  | '"' :: rest, acc => some (⟨acc.reverse⟩, rest)
  | '\\' :: 'u' :: a :: b :: c :: d :: rest, acc =>
    match hexVal a, hexVal b, hexVal c, hexVal d with
    | some x, some y, some z, some w =>
      pStr rest (Char.ofNat (((x * 16 + y) * 16 + z) * 16 + w) :: acc)
    | _, _, _, _ => none
  | '\\' :: e :: rest, acc =>
    if e = '"' ∨ e = '\\' ∨ e = '/' then pStr rest (e :: acc)
    else if e = 'n' then pStr rest ('\n' :: acc)
    else if e = 't' then pStr rest ('\t' :: acc)
    else if e = 'r' then pStr rest ('\r' :: acc)
    else if e = 'b' then pStr rest ('\x08' :: acc)
    else if e = 'f' then pStr rest ('\x0c' :: acc)
    else none
  | c :: rest, acc => if c = '"' ∨ c = '\\' then none else pStr rest (c :: acc)

/-- Parse a run of decimal digits. -/
def pDigits : List Char → Nat → Option (Nat × List Char)
  | c :: rest, acc =>
    if c.isDigit then
      match pDigits rest (acc * 10 + (c.toNat - '0'.toNat)) with
      | some r => some r
      | none => some (acc * 10 + (c.toNat - '0'.toNat), rest)
    else none
  | [], _ => none

mutual

/-- Model of the `JSON.parse` builtin (an external collaborator of this
repository), on the fragment the form posts: objects, arrays, strings,
integer numbers, `true`/`false`/`null`.  Numbers with a fraction or
exponent are outside the model and rejected. -/
def pVal : Nat → List Char → Option (JVal × List Char)
  | 0, _ => none
  | fuel + 1, l =>
    match skipWS l with
    | '{' :: rest =>
      (match skipWS rest with
       | '}' :: rest' => some (.obj [], rest')
       | _ => pMembers fuel (skipWS rest) [])
    | '[' :: rest =>
      (match skipWS rest with
       | ']' :: rest' => some (.arr [], rest')
       | _ => pElems fuel (skipWS rest) [])
    | '"' :: rest =>
      (match pStr rest [] with
       | some (s, rest') => some (.str s, rest')
       | none => none)
    | 't' :: 'r' :: 'u' :: 'e' :: rest => some (.bool true, rest)
    | 'f' :: 'a' :: 'l' :: 's' :: 'e' :: rest => some (.bool false, rest)
    | 'n' :: 'u' :: 'l' :: 'l' :: rest => some (.null, rest)
    | '-' :: rest =>
      (match pDigits rest 0 with
       | some (n, rest') => some (.num (-(n : Int)), rest')
       | none => none)
    | c :: rest =>
      if c.isDigit then
        match pDigits (c :: rest) 0 with
        | some (n, rest') => some (.num (n : Int), rest')
        | none => none
      else none
    | [] => none

/-- Parse `"key": value` pairs after `{`. -/
def pMembers (fuel : Nat) (l : List Char) (acc : List (String × JVal)) :
    Option (JVal × List Char) :=
  match fuel with
  | 0 => none
  | fuel + 1 =>
    match l with
    | '"' :: rest =>
      (match pStr rest [] with
       | some (k, rest') =>
         (match skipWS rest' with
          | ':' :: rest'' =>
            (match pVal fuel rest'' with
             | some (v, rest''') =>
               (match skipWS rest''' with
                | ',' :: more => pMembers fuel (skipWS more) ((k, v) :: acc)
                | '}' :: more => some (.obj (((k, v) :: acc).reverse), more)
                | _ => none)
             | none => none)
          | _ => none)
       | none => none)
    | _ => none

/-- Parse array elements after `[`. -/
def pElems (fuel : Nat) (l : List Char) (acc : List JVal) :
    Option (JVal × List Char) :=
  match fuel with
  | 0 => none
  | fuel + 1 =>
    match pVal fuel l with
    | some (v, rest) =>
      (match skipWS rest with
       | ',' :: more => pElems fuel (skipWS more) (v :: acc)
       | ']' :: more => some (.arr ((v :: acc).reverse), more)
       | _ => none)
    | none => none

end

/-- `JSON.parse` on a whole body string. -/
def jsonParse (s : String) : Option JVal :=
  match pVal (s.length + 1) s.data with
  | some (v, rest) => if skipWS rest = [] then some v else none
  | none => none

/-- The full `trade-appraisal.js` handler (first revision): OPTIONS and
method gating (lines 11–16), JSON parsing with the `|| "{}"` default
(19–24), then `handlerCore`. -/
def handler (env : Env) (now : String) (httpMethod : String) (body : BodyV) :
    Option Outcome :=
  if httpMethod = "OPTIONS" then
    some ⟨⟨200, corsHeaders, "ok"⟩, false, false⟩
  else if httpMethod ≠ "POST" then
    some ⟨⟨405, corsHeaders, "Method Not Allowed"⟩, false, false⟩
  else
    match jsonParse (bodyStr body) with
    | none => some ⟨⟨400, corsHeaders, "Invalid JSON"⟩, false, false⟩
    | some data => handlerCore env now data

/-- `netlify/functions/submission-created.js`, at response granularity:
parse failure → 400; `data.botField || data.honeypot` → 200 "ok";
otherwise the SendGrid send decides 200 "ok" vs 502 (the optional Sheets
backup is swallowed and the attachment fetching cannot change the
response, so neither is modelled).  No response of this handler sets any
headers. -/
def scHandler (emailOk : Bool) (parsed : Option JVal) : Response :=
  match parsed with
  | none => ⟨400, [], "Invalid webhook payload"⟩
  | some body =>
    let payload := jsOr (body.getF ("payload")) (.obj [])
    let data := jsOr (payload.getF ("data")) (.obj [])
    if truthy (data.getF ("botField")) || truthy (data.getF ("honeypot")) then
      ⟨200, [], "ok"⟩
    else if emailOk then ⟨200, [], "ok"⟩
    else ⟨502, [], "Failed to send lead"⟩

example : jsonParse ("\x7b\x7d") = some (JVal.obj []) := rfl
example : jsonParse ("") = none := rfl
example : jsonParse (" \x7b\"a\": \"b\"\x7d ") = some (JVal.obj [("a", JVal.str ("b"))]) := rfl
example : jsonParse ("\x7b\"a\": [1, -2], \"b\": null\x7d") =
    some (JVal.obj [("a", JVal.arr [JVal.num 1, JVal.num (-2)]), ("b", JVal.null)]) := rfl

mutual

/-- JavaScript `String(v)` on the values the form can post. -/
def jsToString : JVal → String
  | .str s => s
  | .num n => toString n
  | .bool b => if b then "true" else "false"
  | .null => "null"
  | .undef => "undefined"
  | .obj _ => "[object Object]"
  | .arr xs => arrToString xs

/-- `Array.prototype.toString`: elements joined by commas, with `null`
and `undefined` elements rendered empty. -/
def arrToString : List JVal → String
  | [] => ""
  | [x] =>
    (match x with
     | .null => ""
     | .undef => ""
     | v => jsToString v)
  | x :: xs =>
    (match x with
     | .null => ""
     | .undef => ""
     | v => jsToString v) ++ "," ++ arrToString xs

end

/-- Field lookup on a merged record (JS property read on a plain object). -/
def lookupF (o : List (String × JVal)) (k : String) : JVal :=
  match o.find? (fun f => f.1 = k) with
  | some f => f.2
  | none => (.undef)

/-- The `preferredOrder` list of `trade-appraisal.js` (second revision,
lines 191–197). -/
def preferredOrder : List String :=
  ["name", "email", "phone", "vin", "year", "make", "model", "trim", "mileage",
   "extColor", "intColor", "title", "keys", "owners", "accident", "accidentRepair",
   "warnings", "mech", "cosmetic", "interior", "mods", "smells", "service",
   "tires", "brakes", "wear", "utmSource", "utmMedium", "utmCampaign", "utmTerm", "utmContent",
   "referrer", "landingPage", "submittedAt"]

/-- `v !== undefined && v !== null && String(v).trim() !== ""` — the
row-inclusion test of lines 207 and 218. -/
def hasValB (v : JVal) : Bool :=
  match v with
  | .undef => false
  | .null => false
  | w => jsTrim (jsToString w) ≠ ""

/-- The contents of the `included` set after the `preferredOrder` pass
(line 209): exactly the preferred keys whose merged value is non-empty. -/
def includedKeys (merged : List (String × JVal)) : List String :=
  preferredOrder.filter (fun k => hasValB (lookupF merged k))

/-- Lexicographic comparison of character lists by code point, the
order JavaScript's default `sort()` comparator applies to these keys. -/
def leChars : List Char → List Char → Bool
  | [], _ => true
  | _ :: _, [] => false
  | c :: cs, d :: ds =>
    if c.toNat < d.toNat then true
    else if d.toNat < c.toNat then false
    else leChars cs ds

/-- The key order used by `Array.prototype.sort` on these string keys. -/
def keyLe (a b : String) : Prop := leChars a.data b.data = true

instance : DecidableRel keyLe := fun _ _ => inferInstanceAs (Decidable (_ = true))

theorem leChars_total : ∀ l m : List Char, leChars l m = true ∨ leChars m l = true := by
  intro l
  induction l with
  | nil => intro m; exact Or.inl rfl
  | cons c cs ih =>
    intro m
    cases m with
    | nil => exact Or.inr rfl
    | cons d ds =>
      rcases Nat.lt_trichotomy c.toNat d.toNat with h | h | h
      · exact Or.inl (by rw [leChars, if_pos h])
      · have h' : ¬ c.toNat < d.toNat := by omega
        have h'' : ¬ d.toNat < c.toNat := by omega
        rcases ih ds with hl | hr
        · exact Or.inl (by rw [leChars, if_neg h', if_neg h'']; exact hl)
        · exact Or.inr (by rw [leChars, if_neg h'', if_neg h']; exact hr)
      · exact Or.inr (by rw [leChars, if_pos h])

theorem leChars_trans :
    ∀ l m n : List Char, leChars l m = true → leChars m n = true → leChars l n = true := by
  intro l
  induction l with
  | nil => intro m n _ _; exact rfl
  | cons c cs ih =>
    intro m n h1 h2
    cases m with
    | nil => exact absurd h1 (by simp [leChars])
    | cons d ds =>
      cases n with
      | nil => exact absurd h2 (by simp [leChars])
      | cons e es =>
        rw [leChars] at h1 h2 ⊢
        rcases Nat.lt_trichotomy c.toNat d.toNat with hcd | hcd | hcd <;>
          rcases Nat.lt_trichotomy d.toNat e.toNat with hde | hde | hde
        all_goals first
        | (rw [if_pos (by omega)])
        | (rw [if_neg (by omega), if_neg (by omega)]
           rw [if_neg (by omega), if_neg (by omega)] at h1
           rw [if_neg (by omega), if_neg (by omega)] at h2
           exact ih ds es h1 h2)
        | (exfalso
           rw [if_neg (by omega), if_pos (by omega)] at h1
           exact Bool.false_ne_true h1)
        | (exfalso
           rw [if_neg (by omega), if_pos (by omega)] at h2
           exact Bool.false_ne_true h2)

instance : IsTotal String keyLe := ⟨fun a b => leChars_total a.data b.data⟩

instance : IsTrans String keyLe := ⟨fun a b c => leChars_trans a.data b.data c.data⟩

/-- JavaScript's default `Array.prototype.sort` on string keys
(lexicographic). -/
def sortKeys (l : List String) : List String := l.insertionSort keyLe

/-- The `rows` array of `trade-appraisal.js` (second revision, lines
203–221): first the non-empty preferred fields in `preferredOrder`
order, then the remaining keys of `merged`, sorted, each pushed when
non-empty. -/
def rowsOf (merged : List (String × JVal)) : List (String × String) :=
  (preferredOrder.filterMap (fun k =>
    if hasValB (lookupF merged k) then some (k, jsToString (lookupF merged k)) else none))
  ++ ((sortKeys ((merged.map Prod.fst).filter
        (fun k => !((includedKeys merged).contains k)))).filterMap (fun k =>
      if hasValB (lookupF merged k) then some (k, jsToString (lookupF merged k)) else none))

/-- The rows as the specification describes them: the non-empty fields
appearing in the fixed preferred-order list, in that list's order,
followed by every remaining non-empty field in lexicographic key
order. -/
def rowsSpec (merged : List (String × JVal)) : List (String × String) :=
  ((preferredOrder.filter (fun k => hasValB (lookupF merged k))).map (fun k =>
    (k, jsToString (lookupF merged k))))
  ++ ((sortKeys ((merged.map Prod.fst).filter (fun k =>
        !((includedKeys merged).contains k) && hasValB (lookupF merged k)))).map (fun k =>
      (k, jsToString (lookupF merged k))))

/-- Replace every occurrence of the character `t` by `r` (JS global
single-character regex replace). -/
def replAllC (t : Char) (r : List Char) : List Char → List Char
  | [] => []
  | c :: cs => (if c = t then r else [c]) ++ replAllC t r cs

/-- `htmlEscape` of `trade-appraisal.js` (second revision, lines
223–226): replace `&`, then `<`, then `>`. -/
def htmlEscape (s : String) : String :=
  ⟨replAllC '>' (("&gt;").data)
    (replAllC '<' (("&lt;").data)
      (replAllC '&' (("&amp;").data) s.data))⟩

/-- Concatenation of the pieces of a template literal. -/
def concatStrs : List String → String
  | [] => ""
  | s :: rest => s ++ concatStrs rest

/-- `${lead.year ? `<year>${lead.year}</year>` : ``}`. -/
def yearFrag (l : Lead) : String :=
  if l.year = "" then "" else "<year>" ++ l.year ++ "</year>"

/-- `${lead.make ? `<make>${lead.make}</make>` : ``}`. -/
def makeFrag (l : Lead) : String :=
  if l.make = "" then "" else "<make>" ++ l.make ++ "</make>"

/-- `${lead.model ? `<model>${lead.model}</model>` : ``}`. -/
def modelFrag (l : Lead) : String :=
  if l.model = "" then "" else "<model>" ++ l.model ++ "</model>"

/-- `${lead.trim ? `<trim>${lead.trim}</trim>` : ``}`. -/
def trimFrag (l : Lead) : String :=
  if l.trim = "" then "" else "<trim>" ++ l.trim ++ "</trim>"

/-- `${lead.referrer ? `Referrer: ${lead.referrer} ` : ``}`. -/
def refFrag (l : Lead) : String :=
  if l.referrer = "" then "" else "Referrer: " ++ l.referrer ++ " "

/-- `${lead.landingPage ? `Landing Page: ${lead.landingPage}` : ``}`. -/
def lpFrag (l : Lead) : String :=
  if l.landingPage = "" then "" else "Landing Page: " ++ l.landingPage

/-- The pieces of the ADF XML template literal of `trade-appraisal.js`
(first revision, lines 62–90), in order. -/
def adfPieces (l : Lead) : List String :=
  ["<?xml version=\"1.0\"?>\n<adf>\n  <prospect status=\"new\">\n    <requestdate>",
   l.submittedAt,
   "</requestdate>\n    <vehicle interest=\"trade-in\">\n      ",
   yearFrag l, "\n      ", makeFrag l, "\n      ", modelFrag l, "\n      ", trimFrag l,
   "\n      <vin>", l.vin,
   "</vin>\n    </vehicle>\n    <customer>\n      <contact>\n        <name part=\"full\">",
   l.name,
   "</name>\n        <phone>+1", l.phone,
   "</phone>\n        <email>", l.email,
   "</email>\n      </contact>\n    </customer>\n    <vendor>\n      <contact><name part=\"full\">Quirk Auto</name></contact>\n    </vendor>\n    <provider>\n      <name part=\"full\">Quirk Trade Appraisal</name>\n      <url>https://www.quirkcars.com/</url>\n      <email>no-reply@quirkcars.com</email>\n    </provider>\n    <comments>",
   refFrag l, lpFrag l,
   "</comments>\n  </prospect>\n</adf>"]

/-- The rendered ADF XML document. -/
def adfXml (l : Lead) : String := concatStrs (adfPieces l)

/-- `Array.prototype.join(" ")`. -/
def joinSp : List String → String
  | [] => ""
  | [s] => s
  | s :: rest => s ++ " " ++ joinSp rest

/-- `[lead.year, lead.make, lead.model].filter(Boolean).join(" ")` —
embedded in the HTML table's subtitle with NO escaping. -/
def subtitleOf (l : Lead) : String :=
  joinSp (([l.year, l.make, l.model]).filter (fun s => s ≠ ""))

/-- `${lead.trim ? `– ${htmlEscape(lead.trim)}` : ""}`. -/
def trimPart (l : Lead) : String :=
  if l.trim = "" then "" else "– " ++ htmlEscape l.trim

/-- The table-row template up to the key slot. -/
def rowBit1 : String :=
  "\n        <tr>\n          <th align=\"left\" style=\"text-transform:capitalize;vertical-align:top;color:#111827;padding:6px 10px 6px 0;\">"

/-- The table-row template between the key and value slots. -/
def rowBit2 : String :=
  "</th>\n          <td style=\"vertical-align:top;color:#111827;padding:6px 0;\">"

/-- The table-row template after the value slot. -/
def rowBit3 : String := "</td>\n        </tr>\n      "

/-- One `<tr>` of the HTML table (lines 234–239): key and value both go
through `htmlEscape`. -/
def rowHtml (kv : String × String) : String :=
  rowBit1 ++ htmlEscape kv.1 ++ rowBit2 ++ htmlEscape kv.2 ++ rowBit3

/-- `rows.map(...).join("")`. -/
def rowsHtml (rows : List (String × String)) : String :=
  concatStrs (rows.map rowHtml)

/-- The `htmlTable` template literal of `trade-appraisal.js` (second
revision, lines 228–242). -/
def htmlTable (l : Lead) (rows : List (String × String)) : String :=
  concatStrs
    ["\n    <h2 style=\"margin:0 0 12px 0;font-family:system-ui,Segoe UI,Roboto,Helvetica,Arial;\">New Trade-In Lead</h2>\n    <p style=\"margin:0 0 16px 0;color:#374151;\">\n      ",
     subtitleOf l, " ", trimPart l,
     "\n    </p>\n    <table cellpadding=\"6\" cellspacing=\"0\" border=\"0\" style=\"border-collapse:collapse;font-family:system-ui,Segoe UI,Roboto,Helvetica,Arial;font-size:14px;\">\n      ",
     rowsHtml rows,
     "\n    </table>\n    <p style=\"margin-top:16px;color:#6B7280;font-size:12px;\">Submitted at ",
     htmlEscape l.submittedAt,
     "</p>\n  "]

example : htmlEscape ("<script>x</script>") = "&lt;script&gt;x&lt;/script&gt;" := by decide
example : htmlEscape ("a&b") = "a&amp;b" := by decide

/-- `n` is a leading segment of `l`. -/
def isPreL : List Char → List Char → Bool
  | [], _ => true
  | _ :: _, [] => false
  | c :: cs, d :: ds => c = d && isPreL cs ds

/-- `n` occurs as a contiguous segment of `l`. -/
def occB (n : List Char) : List Char → Bool
  | [] => isPreL n []
  | d :: ds => isPreL n (d :: ds) || occB n ds

/-- `p` is a trailing segment of `l`. -/
def endsB (p l : List Char) : Bool := isPreL p.reverse l.reverse

/-- All non-empty leading segments of a list. -/
def presOf : List Char → List (List Char)
  | [] => []
  | c :: cs => [c] :: (presOf cs).map (fun p => c :: p)

/-- `l` neither contains `n` nor ends in a non-empty leading segment of
`n` (so no occurrence of `n` can straddle a boundary on `l`'s right). -/
def cleanB (n l : List Char) : Bool :=
  !(occB n l) && (presOf n).all (fun p => !(endsB p l))

theorem isPreL_iff (n l : List Char) : isPreL n l = true ↔ ∃ t, l = n ++ t := by
  induction n generalizing l with
  | nil => simp [isPreL]
  | cons c cs ih =>
    cases l with
    | nil => simp [isPreL]
    | cons d ds =>
      simp only [isPreL, Bool.and_eq_true, decide_eq_true_eq, ih]
      constructor
      · rintro ⟨rfl, t, rfl⟩
        exact ⟨t, rfl⟩
      · rintro ⟨t, h⟩
        cases h
        exact ⟨rfl, t, rfl⟩

theorem occB_iff (n l : List Char) : occB n l = true ↔ ∃ u v, l = u ++ n ++ v := by
  induction l with
  | nil =>
    simp only [occB, isPreL_iff]
    constructor
    · rintro ⟨t, h⟩
      exact ⟨[], t, h⟩
    · rintro ⟨u, v, h⟩
      rw [List.append_assoc] at h
      rcases List.append_eq_nil.mp h.symm with ⟨rfl, h2⟩
      exact ⟨v, h2.symm⟩
  | cons d ds ih =>
    simp only [occB, Bool.or_eq_true, isPreL_iff, ih]
    constructor
    · rintro (⟨t, h⟩ | ⟨u, v, h⟩)
      · exact ⟨[], t, by simpa using h⟩
      · exact ⟨d :: u, v, by simp [h]⟩
    · rintro ⟨u, v, h⟩
      cases u with
      | nil => exact Or.inl ⟨v, by simpa using h⟩
      | cons a u' =>
        rcases List.cons.injEq .. ▸ h with ⟨rfl, h2⟩
        exact Or.inr ⟨u', v, by simpa using h2⟩

theorem endsB_iff (p l : List Char) : endsB p l = true ↔ ∃ u, l = u ++ p := by
  simp only [endsB, isPreL_iff]
  constructor
  · rintro ⟨t, h⟩
    refine ⟨t.reverse, ?_⟩
    have := congrArg List.reverse h
    simpa using this
  · rintro ⟨u, rfl⟩
    exact ⟨u.reverse, by simp⟩

theorem mem_presOf (p n : List Char) :
    p ∈ presOf n ↔ p ≠ [] ∧ ∃ t, n = p ++ t := by
  induction n generalizing p with
  | nil => simp [presOf]
  | cons c cs ih =>
    simp only [presOf, List.mem_cons, List.mem_map]
    constructor
    · rintro (rfl | ⟨q, hq, rfl⟩)
      · exact ⟨by simp, cs, rfl⟩
      · rcases (ih q).mp hq with ⟨hne, t, ht⟩
        exact ⟨by simp, t, by simp [ht]⟩
    · rintro ⟨hne, t, ht⟩
      cases p with
      | nil => exact absurd rfl hne
      | cons a as =>
        rcases List.cons.injEq .. ▸ ht with ⟨rfl, h2⟩
        cases as with
        | nil => exact Or.inl rfl
        | cons b bs =>
          exact Or.inr ⟨b :: bs, (ih _).mpr ⟨by simp, t, h2⟩, rfl⟩

theorem cleanB_no_occ {n l : List Char} (h : cleanB n l = true) : occB n l = false := by
  have := (Bool.and_eq_true ..).mp h
  simpa using this.1

theorem cleanB_no_end {n l p : List Char} (h : cleanB n l = true) (hp : p ∈ presOf n) :
    endsB p l = false := by
  have := (Bool.and_eq_true ..).mp h
  have := (List.all_eq_true.mp this.2) p hp
  simpa using this

/-- The key composition lemma: clean segments concatenate to a clean
segment. -/
theorem cleanB_append {n a b : List Char} (ha : cleanB n a = true) (hb : cleanB n b = true) :
    cleanB n (a ++ b) = true := by
  rw [cleanB, Bool.and_eq_true]
  constructor
  · rw [Bool.not_eq_true', ← Bool.not_eq_true]
    intro hocc
    rcases (occB_iff ..).mp hocc with ⟨u, v, huv⟩
    rw [List.append_assoc] at huv
    rcases (List.append_eq_append_iff).mp huv with ⟨w, _, hw2⟩ | ⟨w, hw1, hw2⟩
    · -- occurrence entirely in b
      have : occB n b = true := (occB_iff ..).mpr ⟨w, v, by rw [hw2, List.append_assoc]⟩
      rw [cleanB_no_occ hb] at this
      exact Bool.false_ne_true this
    · -- a = u ++ w and n ++ v = w ++ b
      rcases (List.append_eq_append_iff).mp hw2 with ⟨x, hx1, _⟩ | ⟨x, hx1, hx2⟩
      · -- w = n ++ x: occurrence entirely in a
        have : occB n a = true :=
          (occB_iff ..).mpr ⟨u, x, by rw [hw1, hx1, List.append_assoc]⟩
        rw [cleanB_no_occ ha] at this
        exact Bool.false_ne_true this
      · -- n = w ++ x, b = x ++ v: straddling occurrence
        cases w with
        | nil =>
          have : occB n b = true :=
            (occB_iff ..).mpr ⟨[], v, by simp at hx1; simp [hx1, hx2]⟩
          rw [cleanB_no_occ hb] at this
          exact Bool.false_ne_true this
        | cons c w' =>
          have hmem : (c :: w') ∈ presOf n := (mem_presOf ..).mpr ⟨by simp, x, hx1⟩
          have : endsB (c :: w') a = true := (endsB_iff ..).mpr ⟨u, hw1⟩
          rw [cleanB_no_end ha hmem] at this
          exact Bool.false_ne_true this
  · rw [List.all_eq_true]
    intro p hp
    rw [Bool.not_eq_true', ← Bool.not_eq_true]
    intro hend
    rcases (endsB_iff ..).mp hend with ⟨u, hu⟩
    rcases (List.append_eq_append_iff).mp hu with ⟨w, _, hw2⟩ | ⟨w, hw1, hw2⟩
    · have : endsB p b = true := (endsB_iff ..).mpr ⟨w, hw2⟩
      rw [cleanB_no_end hb hp] at this
      exact Bool.false_ne_true this
    · rcases (mem_presOf ..).mp hp with ⟨hne, t, ht⟩
      cases w with
      | nil =>
        have : endsB p b = true := (endsB_iff ..).mpr ⟨[], by simp at hw2; simp [hw2]⟩
        rw [cleanB_no_end hb hp] at this
        exact Bool.false_ne_true this
      | cons c w' =>
        have hmem : (c :: w') ∈ presOf n :=
          (mem_presOf ..).mpr ⟨by simp, b ++ t, by rw [ht, hw2]; simp⟩
        have : endsB (c :: w') a = true := (endsB_iff ..).mpr ⟨u, hw1⟩
        rw [cleanB_no_end ha hmem] at this
        exact Bool.false_ne_true this

theorem isPreL_of_ne_nil {p : List Char} (h : p ≠ []) : isPreL p [] = false := by
  cases p with
  | nil => exact absurd rfl h
  | cons a as => rfl

theorem cleanB_nil {n : List Char} (hne : n ≠ []) : cleanB n [] = true := by
  rw [cleanB, Bool.and_eq_true]
  constructor
  · cases n with
    | nil => exact absurd rfl hne
    | cons c cs => simp [occB, isPreL]
  · rw [List.all_eq_true]
    intro p hp
    rcases (mem_presOf ..).mp hp with ⟨hpne, _, _⟩
    rw [Bool.not_eq_true', endsB, List.reverse_nil, isPreL_of_ne_nil (by simpa using hpne)]

/-- Every character of `s` is different from `'<'`. -/
def ltFree (s : String) : Bool := s.data.all (fun c => c ≠ '<')

/-- A needle starting with `'<'` can neither occur in, nor straddle out
of, a `'<'`-free string. -/
theorem cleanB_of_ltFree {m : List Char} {s : String} (h : ltFree s = true) :
    cleanB ('<' :: m) s.data = true := by
  have hall : ∀ c ∈ s.data, c ≠ '<' := by
    intro c hc
    have := (List.all_eq_true.mp h) c hc
    simpa using this
  rw [cleanB, Bool.and_eq_true]
  constructor
  · rw [Bool.not_eq_true', ← Bool.not_eq_true]
    intro hocc
    rcases (occB_iff ..).mp hocc with ⟨u, v, huv⟩
    exact hall '<' (by rw [huv]; simp) rfl
  · rw [List.all_eq_true]
    intro p hp
    rcases (mem_presOf ..).mp hp with ⟨hpne, t, ht⟩
    cases p with
    | nil => exact absurd rfl hpne
    | cons a as =>
      rcases List.cons.injEq .. ▸ ht with ⟨rfl, _⟩
      rw [Bool.not_eq_true', ← Bool.not_eq_true]
      intro hend
      rcases (endsB_iff ..).mp hend with ⟨u, hu⟩
      exact hall '<' (by rw [hu]; simp) rfl

/-- String append acts as list append on the character data. -/
theorem strData_append (s t : String) : (s ++ t).data = s.data ++ t.data := rfl

theorem cleanB_concat {n : List Char} (hne : n ≠ []) {pieces : List String}
    (h : ∀ s ∈ pieces, cleanB n s.data = true) :
    cleanB n (concatStrs pieces).data = true := by
  induction pieces with
  | nil => exact cleanB_nil hne
  | cons s rest ih =>
    rw [concatStrs, strData_append]
    exact cleanB_append (h s (by simp)) (ih (fun p hp => h p (by simp [hp])))

theorem occB_append_left {n a : List Char} (b : List Char) (h : occB n a = true) :
    occB n (a ++ b) = true := by
  rcases (occB_iff ..).mp h with ⟨u, v, rfl⟩
  exact (occB_iff ..).mpr ⟨u, v ++ b, by simp⟩

theorem occB_append_right {n b : List Char} (a : List Char) (h : occB n b = true) :
    occB n (a ++ b) = true := by
  rcases (occB_iff ..).mp h with ⟨u, v, rfl⟩
  exact (occB_iff ..).mpr ⟨a ++ u, v, by simp⟩

theorem occB_concat_of_mem {n : List Char} {pieces : List String} {s : String}
    (hs : s ∈ pieces) (h : occB n s.data = true) :
    occB n (concatStrs pieces).data = true := by
  induction pieces with
  | nil => simp at hs
  | cons p rest ih =>
    rw [concatStrs, strData_append]
    rcases List.mem_cons.mp hs with rfl | hmem
    · exact occB_append_left _ h
    · exact occB_append_right _ (ih hmem)

theorem ltFree_append {s t : String} (hs : ltFree s = true) (ht : ltFree t = true) :
    ltFree (s ++ t) = true := by
  rw [ltFree, strData_append, List.all_append]
  exact (Bool.and_eq_true ..).mpr ⟨hs, ht⟩

/-- Cleanliness of an optional `opn ++ v ++ cls` template fragment. -/
theorem cleanB_wrap {m : List Char} (opn cls : String) {v : String} (hv : ltFree v = true)
    (ho : cleanB ('<' :: m) opn.data = true) (hc : cleanB ('<' :: m) cls.data = true) :
    cleanB ('<' :: m) (if v = "" then ("" : String) else opn ++ v ++ cls).data = true := by
  by_cases h : v = ""
  · rw [if_pos h]
    exact cleanB_nil (by simp)
  · rw [if_neg h, strData_append, strData_append]
    exact cleanB_append (cleanB_append ho (cleanB_of_ltFree hv)) hc

/-- Cleanliness of an optional `opn ++ v` template fragment. -/
theorem cleanB_wrap2 {m : List Char} (opn : String) {v : String} (hv : ltFree v = true)
    (ho : cleanB ('<' :: m) opn.data = true) :
    cleanB ('<' :: m) (if v = "" then ("" : String) else opn ++ v).data = true := by
  by_cases h : v = ""
  · rw [if_pos h]
    exact cleanB_nil (by simp)
  · rw [if_neg h, strData_append]
    exact cleanB_append ho (cleanB_of_ltFree hv)

/-- The constant pieces of the ADF template literal. -/
def adfConstPieces : List String :=
  ["<?xml version=\"1.0\"?>\n<adf>\n  <prospect status=\"new\">\n    <requestdate>",
   "</requestdate>\n    <vehicle interest=\"trade-in\">\n      ",
   "\n      ",
   "\n      <vin>",
   "</vin>\n    </vehicle>\n    <customer>\n      <contact>\n        <name part=\"full\">",
   "</name>\n        <phone>+1",
   "</phone>\n        <email>",
   "</email>\n      </contact>\n    </customer>\n    <vendor>\n      <contact><name part=\"full\">Quirk Auto</name></contact>\n    </vendor>\n    <provider>\n      <name part=\"full\">Quirk Trade Appraisal</name>\n      <url>https://www.quirkcars.com/</url>\n      <email>no-reply@quirkcars.com</email>\n    </provider>\n    <comments>",
   "</comments>\n  </prospect>\n</adf>"]

/-- If every constant template piece and every conditional fragment is
clean for a `'<'`-headed needle, and the embedded field values have no
`'<'`, then the whole rendered ADF document is clean for that needle. -/
theorem cleanB_adfXml {l : Lead} {m : List Char}
    (hts : ∀ s ∈ adfConstPieces, cleanB ('<' :: m) s.data = true)
    (hyf : cleanB ('<' :: m) (yearFrag l).data = true)
    (hmf : cleanB ('<' :: m) (makeFrag l).data = true)
    (hdf : cleanB ('<' :: m) (modelFrag l).data = true)
    (htf : cleanB ('<' :: m) (trimFrag l).data = true)
    (hrf : cleanB ('<' :: m) (refFrag l).data = true)
    (hlf : cleanB ('<' :: m) (lpFrag l).data = true)
    (hsub : ltFree l.submittedAt = true) (hvin : ltFree l.vin = true)
    (hname : ltFree l.name = true) (hphone : ltFree l.phone = true)
    (hemail : ltFree l.email = true) :
    cleanB ('<' :: m) (adfXml l).data = true := by
  rw [adfXml]
  apply cleanB_concat (by simp)
  intro s hs
  simp only [adfPieces, List.mem_cons, List.not_mem_nil, or_false] at hs
  rcases hs with rfl | rfl | rfl | rfl | rfl | rfl | rfl | rfl | rfl | rfl | rfl | rfl
    | rfl | rfl | rfl | rfl | rfl | rfl | rfl | rfl | rfl | rfl
  · exact hts _ (by simp [adfConstPieces])
  · exact cleanB_of_ltFree hsub
  · exact hts _ (by simp [adfConstPieces])
  · exact hyf
  · exact hts _ (by simp [adfConstPieces])
  · exact hmf
  · exact hts _ (by simp [adfConstPieces])
  · exact hdf
  · exact hts _ (by simp [adfConstPieces])
  · exact htf
  · exact hts _ (by simp [adfConstPieces])
  · exact cleanB_of_ltFree hvin
  · exact hts _ (by simp [adfConstPieces])
  · exact cleanB_of_ltFree hname
  · exact hts _ (by simp [adfConstPieces])
  · exact cleanB_of_ltFree hphone
  · exact hts _ (by simp [adfConstPieces])
  · exact cleanB_of_ltFree hemail
  · exact hts _ (by simp [adfConstPieces])
  · exact hrf
  · exact hlf
  · exact hts _ (by simp [adfConstPieces])

/-- All free-text fields embedded in the ADF template are `'<'`-free. -/
def ltFreeLead (l : Lead) : Bool :=
  ltFree l.submittedAt && ltFree l.year && ltFree l.make && ltFree l.model &&
  ltFree l.trim && ltFree l.vin && ltFree l.name && ltFree l.phone &&
  ltFree l.email && ltFree l.referrer && ltFree l.landingPage

theorem ltFreeLead_elim {l : Lead} (h : ltFreeLead l = true) :
    ltFree l.submittedAt = true ∧ ltFree l.year = true ∧ ltFree l.make = true ∧
    ltFree l.model = true ∧ ltFree l.trim = true ∧ ltFree l.vin = true ∧
    ltFree l.name = true ∧ ltFree l.phone = true ∧ ltFree l.email = true ∧
    ltFree l.referrer = true ∧ ltFree l.landingPage = true := by
  simpa [ltFreeLead, Bool.and_eq_true, and_assoc] using h

theorem adfXml_no_make {l : Lead} (hfree : ltFreeLead l = true) (hmk : l.make = "") :
    occB (("<make>").data) (adfXml l).data = false := by
  obtain ⟨hsub, hy, _, hmo, htr, hvin, hname, hphone, hemail, href, hlp⟩ := ltFreeLead_elim hfree
  have hrw : ("<make>").data = '<' :: (("make>").data) := rfl
  rw [hrw]
  apply cleanB_no_occ
  apply cleanB_adfXml (by decide)
  · exact cleanB_wrap ("<year>") ("</year>") hy (by decide) (by decide)
  · rw [makeFrag, if_pos hmk]
    exact cleanB_nil (by simp)
  · exact cleanB_wrap ("<model>") ("</model>") hmo (by decide) (by decide)
  · exact cleanB_wrap ("<trim>") ("</trim>") htr (by decide) (by decide)
  · exact cleanB_wrap ("Referrer: ") (" ") href (by decide) (by decide)
  · exact cleanB_wrap2 ("Landing Page: ") hlp (by decide)
  · exact hsub
  · exact hvin
  · exact hname
  · exact hphone
  · exact hemail

theorem adfXml_no_year {l : Lead} (hfree : ltFreeLead l = true) (hyr : l.year = "") :
    occB (("<year>").data) (adfXml l).data = false := by
  obtain ⟨hsub, _, hmk, hmo, htr, hvin, hname, hphone, hemail, href, hlp⟩ := ltFreeLead_elim hfree
  have hrw : ("<year>").data = '<' :: (("year>").data) := rfl
  rw [hrw]
  apply cleanB_no_occ
  apply cleanB_adfXml (by decide)
  · rw [yearFrag, if_pos hyr]
    exact cleanB_nil (by simp)
  · exact cleanB_wrap ("<make>") ("</make>") hmk (by decide) (by decide)
  · exact cleanB_wrap ("<model>") ("</model>") hmo (by decide) (by decide)
  · exact cleanB_wrap ("<trim>") ("</trim>") htr (by decide) (by decide)
  · exact cleanB_wrap ("Referrer: ") (" ") href (by decide) (by decide)
  · exact cleanB_wrap2 ("Landing Page: ") hlp (by decide)
  · exact hsub
  · exact hvin
  · exact hname
  · exact hphone
  · exact hemail

theorem adfXml_no_model {l : Lead} (hfree : ltFreeLead l = true) (hmo : l.model = "") :
    occB (("<model>").data) (adfXml l).data = false := by
  obtain ⟨hsub, hy, hmk, _, htr, hvin, hname, hphone, hemail, href, hlp⟩ := ltFreeLead_elim hfree
  have hrw : ("<model>").data = '<' :: (("model>").data) := rfl
  rw [hrw]
  apply cleanB_no_occ
  apply cleanB_adfXml (by decide)
  · exact cleanB_wrap ("<year>") ("</year>") hy (by decide) (by decide)
  · exact cleanB_wrap ("<make>") ("</make>") hmk (by decide) (by decide)
  · rw [modelFrag, if_pos hmo]
    exact cleanB_nil (by simp)
  · exact cleanB_wrap ("<trim>") ("</trim>") htr (by decide) (by decide)
  · exact cleanB_wrap ("Referrer: ") (" ") href (by decide) (by decide)
  · exact cleanB_wrap2 ("Landing Page: ") hlp (by decide)
  · exact hsub
  · exact hvin
  · exact hname
  · exact hphone
  · exact hemail

theorem adfXml_no_trim {l : Lead} (hfree : ltFreeLead l = true) (htr : l.trim = "") :
    occB (("<trim>").data) (adfXml l).data = false := by
  obtain ⟨hsub, hy, hmk, hmo, _, hvin, hname, hphone, hemail, href, hlp⟩ := ltFreeLead_elim hfree
  have hrw : ("<trim>").data = '<' :: (("trim>").data) := rfl
  rw [hrw]
  apply cleanB_no_occ
  apply cleanB_adfXml (by decide)
  · exact cleanB_wrap ("<year>") ("</year>") hy (by decide) (by decide)
  · exact cleanB_wrap ("<make>") ("</make>") hmk (by decide) (by decide)
  · exact cleanB_wrap ("<model>") ("</model>") hmo (by decide) (by decide)
  · rw [trimFrag, if_pos htr]
    exact cleanB_nil (by simp)
  · exact cleanB_wrap ("Referrer: ") (" ") href (by decide) (by decide)
  · exact cleanB_wrap2 ("Landing Page: ") hlp (by decide)
  · exact hsub
  · exact hvin
  · exact hname
  · exact hphone
  · exact hemail

theorem adfXml_has_vin (l : Lead) : occB (("<vin>").data) (adfXml l).data = true := by
  rw [adfXml]
  exact occB_concat_of_mem (s := "\n      <vin>") (by simp [adfPieces]) (by decide)

theorem mem_replAllC {t : Char} {r l : List Char} {x : Char} (hx : x ∈ replAllC t r l) :
    x ∈ r ∨ (x ∈ l ∧ x ≠ t) := by
  induction l with
  | nil => simp [replAllC] at hx
  | cons c cs ih =>
    rw [replAllC] at hx
    rcases List.mem_append.mp hx with hm | hm
    · by_cases hct : c = t
      · rw [if_pos hct] at hm
        exact Or.inl hm
      · rw [if_neg hct] at hm
        simp at hm
        exact Or.inr ⟨by simp [hm], hm ▸ hct⟩
    · rcases ih hm with h | ⟨h1, h2⟩
      · exact Or.inl h
      · exact Or.inr ⟨by simp [h1], h2⟩

/-- The escaped form of any string contains no `'<'` at all. -/
theorem ltFree_htmlEscape (s : String) : ltFree (htmlEscape s) = true := by
  rw [ltFree, List.all_eq_true]
  intro c hc
  simp only [decide_eq_true_eq]
  intro hlt
  subst hlt
  rcases mem_replAllC hc with h | ⟨h, _⟩
  · simp at h
  · rcases mem_replAllC h with h2 | ⟨_, h3⟩
    · simp at h2
    · exact h3 rfl

theorem ltFree_joinSp {ls : List String} (h : ∀ s ∈ ls, ltFree s = true) :
    ltFree (joinSp ls) = true := by
  induction ls with
  | nil => decide
  | cons s rest ih =>
    cases rest with
    | nil => exact h s (by simp)
    | cons r rs =>
      have he : joinSp (s :: r :: rs) = s ++ " " ++ joinSp (r :: rs) := rfl
      rw [he]
      exact ltFree_append (ltFree_append (h s (by simp)) (by decide))
        (ih (fun x hx => h x (by simp [List.mem_cons.mp hx])))

theorem ltFree_subtitleOf {l : Lead} (hy : ltFree l.year = true)
    (hmk : ltFree l.make = true) (hmo : ltFree l.model = true) :
    ltFree (subtitleOf l) = true := by
  rw [subtitleOf]
  apply ltFree_joinSp
  intro s hs
  rcases List.mem_filter.mp hs with ⟨hm, _⟩
  simp only [List.mem_cons, List.not_mem_nil, or_false] at hm
  rcases hm with h | h | h
  · exact h ▸ hy
  · exact h ▸ hmk
  · exact h ▸ hmo

theorem ltFree_trimPart (l : Lead) : ltFree (trimPart l) = true := by
  rw [trimPart]
  by_cases h : l.trim = ""
  · rw [if_pos h]; decide
  · rw [if_neg h]
    exact ltFree_append (by decide) (ltFree_htmlEscape _)

theorem cleanB_rowHtml {m : List Char} (kv : String × String)
    (h1 : cleanB ('<' :: m) rowBit1.data = true)
    (h2 : cleanB ('<' :: m) rowBit2.data = true)
    (h3 : cleanB ('<' :: m) rowBit3.data = true) :
    cleanB ('<' :: m) (rowHtml kv).data = true := by
  rw [rowHtml, strData_append, strData_append, strData_append, strData_append]
  exact cleanB_append (cleanB_append (cleanB_append
    (cleanB_append h1 (cleanB_of_ltFree (ltFree_htmlEscape _))) h2)
    (cleanB_of_ltFree (ltFree_htmlEscape _))) h3

theorem cleanB_rowsHtml {m : List Char} (rows : List (String × String))
    (h1 : cleanB ('<' :: m) rowBit1.data = true)
    (h2 : cleanB ('<' :: m) rowBit2.data = true)
    (h3 : cleanB ('<' :: m) rowBit3.data = true) :
    cleanB ('<' :: m) (rowsHtml rows).data = true := by
  rw [rowsHtml]
  apply cleanB_concat (by simp)
  intro s hs
  rcases List.mem_map.mp hs with ⟨kv, _, rfl⟩
  exact cleanB_rowHtml kv h1 h2 h3

/-- The constant pieces of the `htmlTable` template literal. -/
def htmlConstPieces : List String :=
  ["\n    <h2 style=\"margin:0 0 12px 0;font-family:system-ui,Segoe UI,Roboto,Helvetica,Arial;\">New Trade-In Lead</h2>\n    <p style=\"margin:0 0 16px 0;color:#374151;\">\n      ",
   "\n    </p>\n    <table cellpadding=\"6\" cellspacing=\"0\" border=\"0\" style=\"border-collapse:collapse;font-family:system-ui,Segoe UI,Roboto,Helvetica,Arial;font-size:14px;\">\n      ",
   "\n    </table>\n    <p style=\"margin-top:16px;color:#6B7280;font-size:12px;\">Submitted at ",
   "</p>\n  "]

/-- If the constant pieces are clean for a `'<'`-headed needle and the
unescaped subtitle fields have no `'<'`, the whole rendered table is
clean for that needle. -/
theorem cleanB_htmlTable {l : Lead} {rows : List (String × String)} {m : List Char}
    (hts : ∀ s ∈ htmlConstPieces, cleanB ('<' :: m) s.data = true)
    (hr1 : cleanB ('<' :: m) rowBit1.data = true)
    (hr2 : cleanB ('<' :: m) rowBit2.data = true)
    (hr3 : cleanB ('<' :: m) rowBit3.data = true)
    (hy : ltFree l.year = true) (hmk : ltFree l.make = true)
    (hmo : ltFree l.model = true) :
    cleanB ('<' :: m) (htmlTable l rows).data = true := by
  rw [htmlTable]
  apply cleanB_concat (by simp)
  intro s hs
  simp only [List.mem_cons, List.not_mem_nil, or_false] at hs
  rcases hs with rfl | rfl | rfl | rfl | rfl | rfl | rfl | rfl | rfl
  · exact hts _ (by simp [htmlConstPieces])
  · exact cleanB_of_ltFree (ltFree_subtitleOf hy hmk hmo)
  · exact cleanB_of_ltFree (by decide)
  · exact cleanB_of_ltFree (ltFree_trimPart l)
  · exact hts _ (by simp [htmlConstPieces])
  · exact cleanB_rowsHtml rows hr1 hr2 hr3
  · exact hts _ (by simp [htmlConstPieces])
  · exact cleanB_of_ltFree (ltFree_htmlEscape _)
  · exact hts _ (by simp [htmlConstPieces])

theorem occB_rowHtml_val {n : List Char} (kv : String × String)
    (h : occB n (htmlEscape kv.2).data = true) :
    occB n (rowHtml kv).data = true := by
  rw [rowHtml, strData_append, strData_append, strData_append, strData_append]
  exact occB_append_left _ (occB_append_right _ h)

theorem occB_rowsHtml_of_mem {n : List Char} {kv : String × String}
    {rows : List (String × String)} (hkv : kv ∈ rows)
    (h : occB n (rowHtml kv).data = true) :
    occB n (rowsHtml rows).data = true := by
  rw [rowsHtml]
  exact occB_concat_of_mem (List.mem_map_of_mem rowHtml hkv) h

theorem occB_htmlTable_rows {n : List Char} (l : Lead) {rows : List (String × String)}
    (h : occB n (rowsHtml rows).data = true) :
    occB n (htmlTable l rows).data = true := by
  rw [htmlTable]
  exact occB_concat_of_mem (s := rowsHtml rows) (by simp) h

theorem orderedInsert_all_le {α : Type} {r : α → α → Prop} [DecidableRel r] {a : α}
    {s : List α} (h : ∀ x ∈ s, r a x) : s.orderedInsert r a = a :: s := by
  cases s with
  | nil => rfl
  | cons c cs => exact List.orderedInsert_of_le _ _ (h c (by simp))

theorem filter_orderedInsert {α : Type} {r : α → α → Prop} [DecidableRel r] [IsTrans α r]
    (p : α → Bool) (a : α) (s : List α) (hs : s.Sorted r) :
    (s.orderedInsert r a).filter p =
      if p a then (s.filter p).orderedInsert r a else s.filter p := by
  induction s with
  | nil => by_cases hpa : p a <;> simp [hpa]
  | cons b t ih =>
    rcases List.sorted_cons.mp hs with ⟨hb, ht⟩
    by_cases hab : r a b
    · rw [List.orderedInsert_of_le _ _ hab]
      by_cases hpa : p a
      · rw [if_pos hpa, List.filter_cons_of_pos hpa]
        rw [orderedInsert_all_le]
        intro x hx
        rcases List.mem_cons.mp (List.mem_of_mem_filter hx) with rfl | hxt
        · exact hab
        · exact IsTrans.trans _ _ _ hab (hb x hxt)
      · rw [if_neg hpa, List.filter_cons_of_neg hpa]
    · rw [List.orderedInsert, if_neg hab]
      by_cases hpb : p b
      · rw [List.filter_cons_of_pos hpb, List.filter_cons_of_pos hpb, ih ht]
        by_cases hpa : p a
        · rw [if_pos hpa, if_pos hpa, List.orderedInsert, if_neg hab]
        · rw [if_neg hpa, if_neg hpa]
      · rw [List.filter_cons_of_neg hpb, List.filter_cons_of_neg hpb, ih ht]

theorem filter_insertionSort {α : Type} {r : α → α → Prop} [DecidableRel r] [IsTotal α r]
    [IsTrans α r] (p : α → Bool) (l : List α) :
    (l.insertionSort r).filter p = (l.filter p).insertionSort r := by
  induction l with
  | nil => rfl
  | cons a t ih =>
    rw [List.insertionSort, filter_orderedInsert p a _ (List.sorted_insertionSort _ t)]
    by_cases hpa : p a
    · rw [if_pos hpa, ih, List.filter_cons_of_pos hpa, List.insertionSort]
    · rw [if_neg hpa, ih, List.filter_cons_of_neg hpa]

theorem filterMap_if {α β : Type} (q : α → Bool) (f : α → β) (l : List α) :
    l.filterMap (fun k => if q k then some (f k) else none) = (l.filter q).map f := by
  induction l with
  | nil => rfl
  | cons a t ih =>
    by_cases h : q a <;> simp [List.filterMap_cons, List.filter_cons, h, ih]

theorem rowsOf_eq_rowsSpec (merged : List (String × JVal)) :
    rowsOf merged = rowsSpec merged := by
  rw [rowsOf, rowsSpec]
  congr 1
  · exact filterMap_if _ _ _
  · rw [filterMap_if, sortKeys, sortKeys, filter_insertionSort, List.filter_filter]
    congr 2
    apply List.filter_congr
    intro k _
    exact Bool.and_comm ..

theorem includedKeys_nodup (merged : List (String × JVal)) : (includedKeys merged).Nodup :=
  List.Nodup.filter _ (by decide)

theorem filterMap_if_keys {α β : Type} (q : α → Bool) (f : α → β) (l : List α) :
    (l.filterMap (fun k => if q k then some (k, f k) else none)).map Prod.fst = l.filter q := by
  induction l with
  | nil => rfl
  | cons a t ih =>
    by_cases h : q a <;> simp [List.filterMap_cons, List.filter_cons, h, ih]

theorem rowsOf_keys_nodup {merged : List (String × JVal)}
    (h : (merged.map Prod.fst).Nodup) : ((rowsOf merged).map Prod.fst).Nodup := by
  rw [rowsOf, List.map_append, List.nodup_append]
  rw [filterMap_if_keys (fun k => hasValB (lookupF merged k))
        (fun k => jsToString (lookupF merged k)),
      filterMap_if_keys (fun k => hasValB (lookupF merged k))
        (fun k => jsToString (lookupF merged k))]
  refine ⟨includedKeys_nodup merged, ?_, ?_⟩
  · apply List.Nodup.filter
    rw [sortKeys, List.Perm.nodup_iff (List.perm_insertionSort _ _)]
    exact List.Nodup.filter _ h
  · intro a ha hb
    have hmem : a ∈ sortKeys ((merged.map Prod.fst).filter
        (fun k => !((includedKeys merged).contains k))) := List.mem_of_mem_filter hb
    rw [sortKeys, List.mem_insertionSort] at hmem
    have hni := (List.mem_filter.mp hmem).2
    rw [Bool.not_eq_true', ← Bool.not_eq_true] at hni
    exact hni (List.elem_iff.mpr ha)

theorem dropWhile_eq_self_of_all {α : Type} (p : α → Bool) {l : List α}
    (h : ∀ x ∈ l, p x = false) : l.dropWhile p = l := by
  cases l with
  | nil => rfl
  | cons a t => rw [List.dropWhile_cons, h a (by simp), if_neg (by simp)]

theorem wsChar_of_isDigit {c : Char} (h : c.isDigit = true) : wsChar c = false := by
  rw [Bool.eq_false_iff]
  intro hws
  rw [wsChar] at hws
  simp only [Bool.or_eq_true, decide_eq_true_eq] at hws
  rcases hws with ((((h1 | h1) | h1) | h1) | h1) | h1 <;> subst h1 <;> simp [Char.isDigit] at h

theorem trimChars_eq_self_of_digits {l : List Char} (h : ∀ x ∈ l, x.isDigit = true) :
    trimChars l = l := by
  rw [trimChars, dropWhile_eq_self_of_all _ (fun x hx => wsChar_of_isDigit (h x hx)),
    dropWhile_eq_self_of_all _
      (fun x hx => wsChar_of_isDigit (h x (List.mem_reverse.mp hx))),
    List.reverse_reverse]

theorem normPhone_digits (v w : JVal) : ∀ x ∈ (normPhone v w).data, x.isDigit = true := by
  intro x hx
  rw [normPhone] at hx
  have hf := List.take_subset 15 _ hx
  exact (List.mem_filter.mp hf).2

theorem normPhone_length (v w : JVal) : (normPhone v w).length ≤ 15 := by
  rw [normPhone]
  show (List.take 15 _).length ≤ 15
  rw [List.length_take]
  exact min_le_left ..

theorem normPhone_idem (v w : JVal) :
    normPhone (.str (normPhone v w)) (.str (normPhone v w)) = normPhone v w := by
  have hd := normPhone_digits v w
  rw [normPhone, jsOr, ite_self, digits, safe, jsTrim, trimChars_eq_self_of_digits hd]
  show String.mk (List.take 15 (List.filter _ (normPhone v w).data)) = normPhone v w
  have hlen : ((normPhone v w).data).length ≤ 15 := normPhone_length v w
  rw [List.filter_eq_self.mpr hd, List.take_of_length_le hlen]

theorem safe_empty {v : JVal} (h : isStrB v = false) : safe v = "" := by
  cases v <;> first | rfl | simp [isStrB] at h

theorem normPhone_empty {v w : JVal} (hv : isStrB v = false) (hw : isStrB w = false) :
    normPhone v w = "" := by
  have hs : safe (jsOr v w) = "" := by
    rw [jsOr]
    by_cases h : truthy v
    · rw [if_pos h]; exact safe_empty hv
    · rw [if_neg h]; exact safe_empty hw
  rw [normPhone, digits, hs]
  rfl

theorem handlerCore_eq_honeypot {env : Env} {now : String} {data : JVal} {c : String}
    (hc : trimOf? (data.getF ("company")) = some c) (hne : c ≠ "") :
    handlerCore env now data = some ⟨⟨200, corsHeaders, silentBody⟩, false, false⟩ := by
  rw [handlerCore, hc]
  simp [hne]

theorem handlerCore_eq_invalid {env : Env} {now : String} {data : JVal}
    (hc : trimOf? (data.getF ("company")) = some (""))
    (hv : validLead (mkLead data now) = false) :
    handlerCore env now data =
      some ⟨⟨400, corsHeaders, "Missing required fields"⟩, false, false⟩ := by
  rw [handlerCore, hc]
  simp [hv]

theorem handlerCore_eq_send {env : Env} {now : String} {data : JVal}
    (hc : trimOf? (data.getF ("company")) = some (""))
    (hv : validLead (mkLead data now) = true) :
    handlerCore env now data =
      if env.emailOk then some ⟨⟨200, corsHeaders, okBody⟩, true, env.backupConfigured⟩
      else some ⟨⟨502, corsHeaders, "Failed to send lead"⟩, true, false⟩ := by
  rw [handlerCore, hc]
  simp [hv]

/-- A concrete well-formed submission used by several witnesses. -/
def sampleData : JVal :=
  .obj [("name", .str ("Jane Doe")), ("email", .str ("jane@example.com")),
        ("phoneRaw", .str ("(555) 123-4567")), ("vin", .str ("1hgcm82633a004352"))]

/-- C1: the final HTTP status is decided solely by the primary email
delivery: when it succeeds the handler answers 200 `{ok:true}` (the
backup webhook's own success or failure being irrelevant, it is not even
read), and when it fails the handler answers 502 "Failed to send lead"
and never invokes the backup webhook. -/
theorem c1_status_decided_by_primary :
    (∀ (env : Env) (now : String) (data : JVal) (o : Outcome),
       handlerCore env now data = some o → o.emailAttempted = true →
         ((env.emailOk = true →
             o.resp = ⟨200, corsHeaders, okBody⟩ ∧ o.backupInvoked = env.backupConfigured) ∧
          (env.emailOk = false →
             o.resp = ⟨502, corsHeaders, "Failed to send lead"⟩ ∧ o.backupInvoked = false))) ∧
    (∀ (env : Env) (now : String) (data : JVal) (b : Bool),
       handlerCore env now data = handlerCore ⟨env.emailOk, env.backupConfigured, b⟩ now data) := by
  constructor
  · intro env now data o h hatt
    rcases htr : trimOf? (data.getF ("company")) with _ | c
    · rw [handlerCore, htr] at h
      exact absurd h (by simp)
    · by_cases hc : c = ""
      · subst hc
        cases hv : validLead (mkLead data now)
        · rw [handlerCore_eq_invalid htr hv, Option.some.injEq] at h
          subst h
          simp at hatt
        · rw [handlerCore_eq_send htr hv] at h
          cases he : env.emailOk
          · rw [he, if_neg (by simp), Option.some.injEq] at h
            subst h
            exact ⟨fun het => absurd het (by simp [he]), fun _ => ⟨rfl, rfl⟩⟩
          · rw [he, if_pos rfl, Option.some.injEq] at h
            subst h
            exact ⟨fun _ => ⟨rfl, rfl⟩, fun hef => absurd hef (by simp [he])⟩
      · rw [handlerCore_eq_honeypot htr hc, Option.some.injEq] at h
        subst h
        simp at hatt
  · intro env now data b
    rfl

theorem c1_witness :
    handlerCore ⟨true, true, true⟩ ("t") sampleData =
      some ⟨⟨200, corsHeaders, okBody⟩, true, true⟩ ∧
    (⟨⟨200, corsHeaders, okBody⟩, true, true⟩ : Outcome).resp = ⟨200, corsHeaders, okBody⟩ ∧
    (⟨⟨200, corsHeaders, okBody⟩, true, true⟩ : Outcome).backupInvoked = true := by
  refine ⟨by decide, ?_⟩
  exact (c1_status_decided_by_primary.1 ⟨true, true, true⟩ ("t") sampleData
    ⟨⟨200, corsHeaders, okBody⟩, true, true⟩ (by decide) (by decide)).1 rfl

/-- C2 as frozen is violated by honeypot precedence: an input with a
non-empty `company` and an empty required `name` returns the silent 200,
not 400.  This closed instance shows it. -/
theorem c2_counterexample :
    (mkLead (JVal.obj [("company", JVal.str ("bot")), ("name", JVal.str (""))]) ("t")).name = ""
    ∧ handlerCore ⟨true, true, true⟩ ("t")
        (JVal.obj [("company", JVal.str ("bot")), ("name", JVal.str (""))])
      = some ⟨⟨200, corsHeaders, silentBody⟩, false, false⟩
    ∧ (200 : Nat) ≠ 400 := by decide

/-- C2 (amended): for every input passing the honeypot check (`company`
empty after trimming), if any of name, email, phone, vin is empty after
normalization the handler returns 400 "Missing required fields" and
invokes neither the email transport nor the backup webhook. -/
theorem c2_missing_fields_rejected :
    ∀ (env : Env) (now : String) (data : JVal),
      trimOf? (data.getF ("company")) = some ("") →
      ((mkLead data now).name = "" ∨ (mkLead data now).email = "" ∨
       (mkLead data now).phone = "" ∨ (mkLead data now).vin = "") →
      handlerCore env now data =
        some ⟨⟨400, corsHeaders, "Missing required fields"⟩, false, false⟩ := by
  intro env now data hc hmiss
  have hv : validLead (mkLead data now) = false := by
    rw [validLead]
    rcases hmiss with h | h | h | h <;> simp [h]
  exact handlerCore_eq_invalid hc hv

theorem c2_witness :
    trimOf? ((JVal.obj [("email", JVal.str ("a@b.c"))]).getF ("company")) = some ("") ∧
    (mkLead (JVal.obj [("email", JVal.str ("a@b.c"))]) ("t")).name = "" ∧
    handlerCore ⟨true, true, true⟩ ("t") (JVal.obj [("email", JVal.str ("a@b.c"))]) =
      some ⟨⟨400, corsHeaders, "Missing required fields"⟩, false, false⟩ :=
  ⟨by decide, by decide,
    c2_missing_fields_rejected ⟨true, true, true⟩ ("t") _ (by decide) (Or.inl (by decide))⟩

/-- C3: any parsed input whose `company` trims to a non-empty string is
answered 200 `{ok:true,silent:true}` with no transport invoked at all,
whatever the other fields hold. -/
theorem c3_honeypot_silent_success :
    ∀ (env : Env) (now : String) (data : JVal) (c : String),
      trimOf? (data.getF ("company")) = some c → c ≠ "" →
      handlerCore env now data = some ⟨⟨200, corsHeaders, silentBody⟩, false, false⟩ := by
  intro env now data c hc hne
  exact handlerCore_eq_honeypot hc hne

theorem c3_witness :
    trimOf? ((JVal.obj [("company", JVal.str ("spam Inc"))]).getF ("company")) =
      some ("spam Inc") ∧
    ("spam Inc" : String) ≠ "" ∧
    handlerCore ⟨true, true, true⟩ ("t") (JVal.obj [("company", JVal.str ("spam Inc"))]) =
      some ⟨⟨200, corsHeaders, silentBody⟩, false, false⟩ :=
  ⟨by decide, by decide,
    c3_honeypot_silent_success ⟨true, true, true⟩ ("t") _ ("spam Inc") (by decide) (by decide)⟩

/-- C4 as frozen is violated by its own example: `"(603) 555-1212 ext9"`
has eleven digits (the `9` of `ext9` survives the digit strip and the
15-character cap does not remove it), so normalization yields
`"60355512129"`, not `"6035551212"`. -/
theorem c4_counterexample :
    normPhone (JVal.str ("(603) 555-1212 ext9")) JVal.undef = "60355512129" ∧
    ("60355512129" : String) ≠ "6035551212" := by decide

/-- C4 (amended): phone normalization always yields at most 15
characters, all decimal digits; it is idempotent on its own output; and
it maps `"(603) 555-1212 ext9"` to `"60355512129"` (not `"6035551212"`
as the frozen claim said). -/
theorem c4_phone_normalization :
    (∀ v w : JVal, (normPhone v w).length ≤ 15 ∧ ∀ x ∈ (normPhone v w).data, x.isDigit = true) ∧
    (∀ v w : JVal,
      normPhone (.str (normPhone v w)) (.str (normPhone v w)) = normPhone v w) ∧
    normPhone (JVal.str ("(603) 555-1212 ext9")) JVal.undef = "60355512129" :=
  ⟨fun v w => ⟨normPhone_length v w, normPhone_digits v w⟩,
   fun v w => normPhone_idem v w, by decide⟩

theorem c4_witness :
    ('6' ∈ (normPhone (JVal.str ("(603) 555-1212 ext9")) JVal.undef).data) ∧
    Char.isDigit '6' = true :=
  ⟨by decide, (c4_phone_normalization.1 (JVal.str ("(603) 555-1212 ext9")) JVal.undef).2
    '6' (by decide)⟩

/-- A valid lead (its `make` empty) whose `name` smuggles a `<make>`
tag into the unescaped ADF template. -/
def c6CexLead : Lead :=
  { name := "<make>sneak</make>", email := "a@b.example", phone := "5551234567",
    vin := "1HGCM82633A004352", year := "", make := "", model := "", trim := "",
    mileage := "", extColor := "", intColor := "",
    submittedAt := "2024-01-01T00:00:00.000Z", referrer := "", landingPage := "" }

/-- C6 as frozen is violated: the ADF renderer escapes nothing, so a
valid lead with `make = ""` whose `name` contains the text `<make>`
still yields a rendered document containing a `<make>` tag. -/
theorem c6_counterexample :
    validLead c6CexLead = true ∧ c6CexLead.make = "" ∧
    occB (("<make>").data) (adfXml c6CexLead).data = true := by decide

/-- C6 (amended): provided the embedded free-text fields contain no
`'<'` character, the rendered ADF XML contains no `<make>` tag when
`make` is empty — likewise for `year`, `model` and `trim` — and the
mandatory `<vin>` element is always present (the latter without any
proviso). -/
theorem c6_optional_tags_omitted :
    ∀ l : Lead, ltFreeLead l = true →
      ((l.make = "" → occB (("<make>").data) (adfXml l).data = false) ∧
       (l.year = "" → occB (("<year>").data) (adfXml l).data = false) ∧
       (l.model = "" → occB (("<model>").data) (adfXml l).data = false) ∧
       (l.trim = "" → occB (("<trim>").data) (adfXml l).data = false) ∧
       occB (("<vin>").data) (adfXml l).data = true) :=
  fun l hf =>
    ⟨fun h => adfXml_no_make hf h, fun h => adfXml_no_year hf h,
     fun h => adfXml_no_model hf h, fun h => adfXml_no_trim hf h, adfXml_has_vin l⟩

/-- A benign valid lead with `make` and `trim` absent. -/
def c6Lead : Lead :=
  { name := "Jane Doe", email := "jane@example.com", phone := "5551234567",
    vin := "1HGCM82633A004352", year := "2020", make := "", model := "Civic", trim := "",
    mileage := "42000", extColor := "blue", intColor := "black",
    submittedAt := "2024-01-01T00:00:00.000Z", referrer := "", landingPage := "" }

theorem c6_witness :
    ltFreeLead c6Lead = true ∧ c6Lead.make = "" ∧
    occB (("<make>").data) (adfXml c6Lead).data = false ∧
    occB (("<vin>").data) (adfXml c6Lead).data = true :=
  ⟨by decide, rfl, (c6_optional_tags_omitted c6Lead (by decide)).1 rfl,
   (c6_optional_tags_omitted c6Lead (by decide)).2.2.2.2⟩

/-- A valid lead whose `make` carries script markup. -/
def c7CexLead : Lead :=
  { name := "Bob", email := "b@q.example", phone := "5551234567", vin := "V1NV1NV1NV1NV1N",
    year := "2020", make := "<script>x</script>", model := "Civic", trim := "",
    mileage := "", extColor := "", intColor := "", submittedAt := "t",
    referrer := "", landingPage := "" }

/-- The merged record matching `c7CexLead`. -/
def c7CexMerged : List (String × JVal) :=
  [("name", .str ("Bob")), ("email", .str ("b@q.example")),
   ("phone", .str ("5551234567")), ("vin", .str ("V1NV1NV1NV1NV1N")),
   ("year", .str ("2020")), ("make", .str ("<script>x</script>")),
   ("model", .str ("Civic")), ("submittedAt", .str ("t"))]

/-- A benign lead for the C7 witness. -/
def c7Lead : Lead :=
  { name := "<script>x</script>", email := "jane@example.com", phone := "5551234567",
    vin := "1HGCM82633A004352", year := "2020", make := "Honda", model := "Civic",
    trim := "", mileage := "", extColor := "", intColor := "", submittedAt := "t",
    referrer := "", landingPage := "" }

/-- C8: for every merged record with duplicate-free keys, the rows are
exactly the non-empty fields, ordered with the preferred-list fields
first (in the list's order) and every remaining non-empty field in
lexicographic key order afterwards, and no key appears twice. -/
theorem c8_rows_ordered_no_dups :
    ∀ merged : List (String × JVal), (merged.map Prod.fst).Nodup →
      rowsOf merged = rowsSpec merged ∧ ((rowsOf merged).map Prod.fst).Nodup :=
  fun merged h => ⟨rowsOf_eq_rowsSpec merged, rowsOf_keys_nodup h⟩

/-- A merged record exercising preferred, extra and empty fields. -/
def c8Merged : List (String × JVal) :=
  [("zeta", .str ("z")), ("name", .str ("Jane")), ("alpha", .str ("a")),
   ("blank", .str ("  ")), ("year", .str ("2020")), ("count", .num 3)]

theorem c8_witness :
    ((c8Merged.map Prod.fst).Nodup) ∧
    rowsOf c8Merged = rowsSpec c8Merged ∧
    ((rowsOf c8Merged).map Prod.fst).Nodup ∧
    rowsOf c8Merged =
      [("name", "Jane"), ("year", "2020"), ("alpha", "a"), ("count", "3"),
       ("zeta", "z")] := by
  refine ⟨by decide, ?_, ?_, by decide⟩
  · exact (c8_rows_ordered_no_dups c8Merged (by decide)).1
  · exact (c8_rows_ordered_no_dups c8Merged (by decide)).2

/-- C9 as frozen is violated: the `submission-created` lead-intake
handler returns responses with no headers at all — here its success
response — so they carry no CORS headers. -/
theorem c9_counterexample :
    scHandler true (some (JVal.obj [])) = ⟨200, [], "ok"⟩ ∧
    ¬ (("Access-Control-Allow-Origin", ("*" : String)) ∈
        (scHandler true (some (JVal.obj []))).headers) := by decide

/-- C9 (amended): every response of the trade-appraisal handler —
OPTIONS, 405, 400 (both kinds), honeypot, 200 and 502 alike — carries
exactly the permissive CORS headers, while every response of the
submission-created webhook handler carries no headers at all. -/
theorem c9_cors_headers :
    (∀ (env : Env) (now m : String) (b : BodyV) (o : Outcome),
        handler env now m b = some o → o.resp.headers = corsHeaders) ∧
    (∀ (ok : Bool) (p : Option JVal), (scHandler ok p).headers = []) := by
  constructor
  · intro env now m b o h
    rw [handler] at h
    split_ifs at h with h1 h2
    · rw [Option.some.injEq] at h
      subst h
      rfl
    · rw [Option.some.injEq] at h
      subst h
      rfl
    · rcases hp : jsonParse (bodyStr b) with _ | data
      · rw [hp, Option.some.injEq] at h
        subst h
        rfl
      · rw [hp] at h
        change handlerCore env now data = some o at h
        rcases htr : trimOf? (data.getF ("company")) with _ | c
        · rw [handlerCore, htr] at h
          exact absurd h (by simp)
        · by_cases hc : c = ""
          · subst hc
            cases hv : validLead (mkLead data now)
            · rw [handlerCore_eq_invalid htr hv, Option.some.injEq] at h
              subst h
              rfl
            · rw [handlerCore_eq_send htr hv] at h
              cases he : env.emailOk
              · rw [he, if_neg (by simp), Option.some.injEq] at h
                subst h
                rfl
              · rw [he, if_pos rfl, Option.some.injEq] at h
                subst h
                rfl
          · rw [handlerCore_eq_honeypot htr hc, Option.some.injEq] at h
            subst h
            rfl
  · intro ok p
    rcases p with _ | body
    · rfl
    · rw [scHandler]
      split_ifs <;> rfl

theorem c9_witness :
    handler ⟨true, true, true⟩ ("t") ("GET") (BodyV.strB ("\x7b\x7d")) =
      some ⟨⟨405, corsHeaders, "Method Not Allowed"⟩, false, false⟩ ∧
    (⟨⟨405, corsHeaders, "Method Not Allowed"⟩, false, false⟩ : Outcome).resp.headers =
      corsHeaders :=
  ⟨by decide,
   c9_cors_headers.1 ⟨true, true, true⟩ ("t") ("GET") (BodyV.strB ("\x7b\x7d"))
     ⟨⟨405, corsHeaders, "Method Not Allowed"⟩, false, false⟩ (by decide)⟩

/-- C10: a POST whose body is absent (undefined or null) or the empty
string is defaulted to the empty JSON object by `event.body || "{}"`:
the handler does not answer 400 "Invalid JSON" but walks through
normalization and fails the required-field check with 400 "Missing
required fields", never touching a transport. -/
theorem c10_empty_body_defaults :
    ∀ (env : Env) (now : String) (b : BodyV), b = BodyV.missing ∨ b = BodyV.strB ("") →
      handler env now ("POST") b =
        some ⟨⟨400, corsHeaders, "Missing required fields"⟩, false, false⟩ := by
  intro env now b hb
  have hbs : bodyStr b = "\x7b\x7d" := by rcases hb with rfl | rfl <;> rfl
  rw [handler, if_neg (by decide), if_neg (by decide), hbs]
  have hp : jsonParse ("\x7b\x7d") = some (JVal.obj []) := rfl
  rw [hp]
  exact handlerCore_eq_invalid (by decide) rfl

theorem c10_witness :
    (BodyV.missing = BodyV.missing ∨ BodyV.missing = BodyV.strB ("")) ∧
    handler ⟨true, true, true⟩ ("t") ("POST") BodyV.missing =
      some ⟨⟨400, corsHeaders, "Missing required fields"⟩, false, false⟩ :=
  ⟨Or.inl rfl,
   c10_empty_body_defaults ⟨true, true, true⟩ ("t") BodyV.missing (Or.inl rfl)⟩
